import Mathlib

/-!
# Verification of the Flash-Masta desktop core layers

This development embeds the two core layers of the Flash-Masta desktop
application and proves the specified properties about them.

* `ngp_chip` — the flash chip controller (mode state machine, byte
  programming, bulk read/program with cooperative cancellation).  Only the
  class declaration (`src/cartridge/ngp_chip.h`) is available; the member
  function bodies are modelled from the specification, as marked on each
  definition.
* `libusb_device_manager` — the device registry and its reconciliation
  pass, translated from `src/linkmasta/libusb_device_manager.cpp`.

Machine integers are modelled as `Nat`; byte-level masking is explicit
where it matters.  C++ `std::map` tables are modelled as association
lists; `throw std::invalid_argument` is modelled with `Except String`.
-/

/-! ## Chip controller: data model -/

/-- The belief-state of the chip controller (`ngp_chip::chip_mode`). -/
inductive chip_mode
  | READ
  | AUTOSELECT
  | BYPASS
  | ERASE
deriving DecidableEq, Repr

/-- The chip controller together with the simulated chip it drives.
`m_mode`, `m_last_erased_addr`, `m_supports_bypass`, `m_chip_num` are the
controller members declared in `ngp_chip.h`.  `mem` is the simulated chip
memory (one byte per address) standing in for the transport, and
`m_erase_polls` counts hardware completion polls performed so far, so the
simulated erase-completion condition can be a function of the poll index. -/
structure ngp_chip where
  m_mode : chip_mode
  m_last_erased_addr : Nat
  m_supports_bypass : Bool
  m_chip_num : Nat
  mem : Nat → Nat
  m_erase_polls : Nat

/-! ## Chip controller: operations (modelled from the spec) -/

/-- Modelled from the spec: `erase_chip()` issues the full-chip erase
command sequence and sets belief-state to ERASE (the `.cpp` body is not in
the sources; spec §4.2). -/
def erase_chip (c : ngp_chip) : ngp_chip :=
  { c with m_mode := chip_mode.ERASE }

/-- Modelled from the spec: `erase_block(block_address)` issues the
single-sector erase command sequence, records the block-erase target in
`m_last_erased_addr`, and sets belief-state to ERASE (spec §3, §4.2). -/
def erase_block (c : ngp_chip) (block_address : Nat) : ngp_chip :=
  { c with m_mode := chip_mode.ERASE, m_last_erased_addr := block_address }

/-- Modelled from the spec: `is_erasing()` merely returns the last
belief-state without touching hardware (spec §4.2).  The state is returned
unchanged to make that explicit. -/
def is_erasing (c : ngp_chip) : Bool × ngp_chip :=
  (decide (c.m_mode = chip_mode.ERASE), c)

/-- Modelled from the spec: `current_mode()` reads the cached belief-state
without touching hardware (spec §3, §4.2). -/
def current_mode (c : ngp_chip) : chip_mode × ngp_chip :=
  (c.m_mode, c)

/-- Modelled from the spec: `test_erasing()` performs the hardware
completion poll for an in-progress erase and updates the belief-state to
READ exactly when the poll indicates completion (spec §4.2).  The
hardware's answer to the next completion poll is supplied by the oracle
`done`, indexed by the number of polls performed so far; the returned
`Bool` is the post-update belief-state query. -/
def test_erasing (done : Nat → Bool) (c : ngp_chip) : Bool × ngp_chip :=
  let complete := done c.m_erase_polls
  let c' : ngp_chip :=
    { c with
      m_erase_polls := c.m_erase_polls + 1,
      m_mode := if complete then chip_mode.READ else c.m_mode }
  (decide (c'.m_mode = chip_mode.ERASE), c')

/-- Modelled from the spec: `program_byte(address, data)` issues the
byte-program command sequence, writes `data` at `address`, and leaves the
belief-state at READ (spec §4.2).  Flash hardware can only clear bits
(1 to 0), never set them, so the simulated chip byte becomes the bitwise
AND of the previous byte with `data`. -/
def program_byte (c : ngp_chip) (address data : Nat) : ngp_chip :=
  { c with
    m_mode := chip_mode.READ,
    mem := fun a => if a = address then c.mem address &&& data else c.mem a }

/-- Modelled from the spec: a test-harness double for `program_byte` that
rejects an attempt that would set a previously-0 bit, surfacing a contract
violation distinct from ordinary operation (spec §8). -/
def program_byte_checked (c : ngp_chip) (address data : Nat) :
    Except String ngp_chip :=
  if c.mem address &&& data = data then Except.ok (program_byte c address data)
  else Except.error "contract violation: attempt to set an unerased bit"

/-- A cancellation source (the `is_task_cancelled` query of the
`task_controller` a bulk operation polls) as a function of the number of
units already transferred. -/
def cancel_after (k : Nat) : Nat → Bool :=
  fun units_done => decide (k ≤ units_done)

/-- Modelled from the spec: the unit loop of `read_bytes`.  Each iteration
first consults the cancellation source (when one is supplied) with the
count transferred so far, stops early when cancellation is signalled, and
otherwise transfers one byte (spec §4.2, §8: a source cancelling after
unit `k` yields exactly `k`, including `k = 0`). -/
def read_bytes_go (c : ngp_chip) (address : Nat)
    (controller : Option (Nat → Bool)) :
    Nat → Nat → List Nat → List Nat × Nat
  | 0, d, acc => (acc.reverse, d)
  | n + 1, d, acc =>
    match controller with
    | some ctl =>
      if ctl d then (acc.reverse, d)
      else read_bytes_go c address controller n (d + 1) (c.mem (address + d) :: acc)
    | none => read_bytes_go c address controller n (d + 1) (c.mem (address + d) :: acc)

/-- Modelled from the spec: `read_bytes(address, data, num_bytes,
controller)` reads `num_bytes` bytes starting at `address`, polling the
optional cancellation source between units; on cancellation it stops early
and returns the count actually transferred, which is a valid partial
result, not an error (spec §4.2). -/
def read_bytes (c : ngp_chip) (address : Nat) (num_bytes : Nat)
    (controller : Option (Nat → Bool)) : List Nat × Nat :=
  read_bytes_go c address controller num_bytes 0 []

/-- Modelled from the spec: the unit loop of `program_bytes`, mirroring
`read_bytes_go` but driving `program_byte` per unit. -/
def program_bytes_go (address : Nat) (data : List Nat)
    (controller : Option (Nat → Bool)) :
    Nat → Nat → ngp_chip → ngp_chip × Nat
  | 0, d, c => (c, d)
  | n + 1, d, c =>
    match controller with
    | some ctl =>
      if ctl d then (c, d)
      else
        program_bytes_go address data controller n (d + 1)
          (program_byte c (address + d) (data.getD d 0))
    | none =>
      program_bytes_go address data controller n (d + 1)
        (program_byte c (address + d) (data.getD d 0))

/-- Modelled from the spec: `program_bytes(address, data, num_bytes,
controller)` programs `num_bytes` bytes starting at `address`, with the
same cancellation checkpoints and partial-result-on-cancel semantics as
`read_bytes` (spec §4.2). -/
def program_bytes (c : ngp_chip) (address : Nat) (data : List Nat)
    (num_bytes : Nat) (controller : Option (Nat → Bool)) : ngp_chip × Nat :=
  program_bytes_go address data controller num_bytes 0 c

/-- One state-inspection call: either `is_erasing()` or `current_mode()`.
Used to express that any number of such calls leaves the controller state
untouched. -/
inductive obs_call
  | obs_is_erasing
  | obs_current_mode
deriving DecidableEq, Repr

/-- Run one state-inspection call for its state effect (there is none). -/
def run_obs (c : ngp_chip) : obs_call → ngp_chip
  | obs_call.obs_is_erasing => (is_erasing c).2
  | obs_call.obs_current_mode => (current_mode c).2

/-! ## Device manager: data model

Translated from `src/linkmasta/libusb_device_manager.cpp`.  A
`libusb_device*` native handle is its identity, modelled as a `Nat`; the
constructed `linkmasta_device*` is likewise modelled by an opaque `Nat`
tag (its value is never inspected by the manager).  The `std::map` tables
are association lists iterated in list order. -/

/-- One registry entry (`libusb_device_manager::connected_device`). -/
structure connected_device where
  id : Nat
  vendor_id : Nat
  product_id : Nat
  manufacturer_string : String
  product_string : String
  serial_number : String
  device : Nat
  linkmasta : Nat
  claimed : Bool
deriving DecidableEq, Repr

/-- One device visible on the USB bus during an enumeration: its native
handle identity and the descriptor fields read from it. -/
structure bus_device where
  handle : Nat
  idVendor : Nat
  idProduct : Nat
  manufacturer : String
  product : String
  serial : String
deriving DecidableEq, Repr

/-- `m_connected_devices`: the registry table keyed by surrogate id. -/
abbrev Registry := List (Nat × connected_device)

/-- The manager state: the registry plus the surrogate-id counter.
`next_id` models `generate_id()` (not among the sources); modelled from
the spec: each new entry gets a fresh surrogate id, unique at any
instant. -/
structure libusb_device_manager where
  connected : Registry
  next_id : Nat
deriving DecidableEq, Repr

/-- The keys (surrogate ids) of a registry table. -/
def keys (l : Registry) : List Nat := l.map Prod.fst

/-- The message of the `std::invalid_argument` thrown for an unknown id. -/
def unknown_device_msg (id : Nat) : String :=
  "Unknown connected device ID " ++ toString id

/-! ## Device manager: accessors and claim operations

Each operation returns its result together with the (possibly updated)
manager state; a read-only operation returns the state unchanged, exactly
as the C++ method leaves `m_connected_devices` untouched. -/

/-- `is_connected(id)`. -/
def is_connected (m : libusb_device_manager) (id : Nat) :
    Bool × libusb_device_manager :=
  ((m.connected.lookup id).isSome, m)

/-- `get_connected_devices()`: the current registry keys. -/
def get_connected_devices (m : libusb_device_manager) :
    List Nat × libusb_device_manager :=
  (keys m.connected, m)

/-- `get_vendor_id(id)`. -/
def get_vendor_id (m : libusb_device_manager) (id : Nat) :
    Except String Nat × libusb_device_manager :=
  match m.connected.lookup id with
  | none => (Except.error (unknown_device_msg id), m)
  | some d => (Except.ok d.vendor_id, m)

/-- `get_product_id(id)`. -/
def get_product_id (m : libusb_device_manager) (id : Nat) :
    Except String Nat × libusb_device_manager :=
  match m.connected.lookup id with
  | none => (Except.error (unknown_device_msg id), m)
  | some d => (Except.ok d.product_id, m)

/-- `get_manufacturer_string(id)`. -/
def get_manufacturer_string (m : libusb_device_manager) (id : Nat) :
    Except String String × libusb_device_manager :=
  match m.connected.lookup id with
  | none => (Except.error (unknown_device_msg id), m)
  | some d => (Except.ok d.manufacturer_string, m)

/-- `get_product_string(id)`. -/
def get_product_string (m : libusb_device_manager) (id : Nat) :
    Except String String × libusb_device_manager :=
  match m.connected.lookup id with
  | none => (Except.error (unknown_device_msg id), m)
  | some d => (Except.ok d.product_string, m)

/-- `get_serial_number(id)`. -/
def get_serial_number (m : libusb_device_manager) (id : Nat) :
    Except String String × libusb_device_manager :=
  match m.connected.lookup id with
  | none => (Except.error (unknown_device_msg id), m)
  | some d => (Except.ok d.serial_number, m)

/-- `get_linkmasta_device(id)`: the transport handle. -/
def get_linkmasta_device (m : libusb_device_manager) (id : Nat) :
    Except String Nat × libusb_device_manager :=
  match m.connected.lookup id with
  | none => (Except.error (unknown_device_msg id), m)
  | some d => (Except.ok d.linkmasta, m)

/-- `is_device_claimed(id)`. -/
def is_device_claimed (m : libusb_device_manager) (id : Nat) :
    Except String Bool × libusb_device_manager :=
  match m.connected.lookup id with
  | none => (Except.error (unknown_device_msg id), m)
  | some d => (Except.ok d.claimed, m)

/-- Update the entry stored under key `id` in place (the effect of
assigning through the iterator returned by `find`). -/
def update_entry (l : Registry) (id : Nat)
    (f : connected_device → connected_device) : Registry :=
  l.map fun e => if e.1 = id then (e.1, f e.2) else e

/-- `try_claim_device(id)`: reads the `claimed` flag, sets it, and
returns whether this call transitioned the entry from unclaimed to
claimed; an unknown id raises `std::invalid_argument`. -/
def try_claim_device (m : libusb_device_manager) (id : Nat) :
    Except String Bool × libusb_device_manager :=
  match m.connected.lookup id with
  | none => (Except.error (unknown_device_msg id), m)
  | some d =>
    (Except.ok (!d.claimed),
     { m with connected := update_entry m.connected id (fun e => { e with claimed := true }) })

/-- `release_device(id)`: clears the `claimed` flag; an unknown id raises
`std::invalid_argument`. -/
def release_device (m : libusb_device_manager) (id : Nat) :
    Except String Unit × libusb_device_manager :=
  match m.connected.lookup id with
  | none => (Except.error (unknown_device_msg id), m)
  | some _ =>
    (Except.ok (),
     { m with connected := update_entry m.connected id (fun e => { e with claimed := false }) })

/-! ## Device manager: reconciliation (`refresh_device_list`) -/

/-- `is_supported(vendor_id, product_id)`: the fixed allow-list. -/
def is_supported (vendor_id product_id : Nat) : Bool :=
  (vendor_id == 0x20A0 && product_id == 0x4178)      -- NGP (linkmasta)
  || (vendor_id == 0x20A0 && product_id == 0x4256)   -- NGP (new flashmasta)
  || (vendor_id == 0x20A0 && product_id == 0x4252)   -- WS

/-- Assignment through `std::map::operator[]` on the `device_status`
table: update the value if the key is present, insert it otherwise. -/
def status_set (st : List (Nat × Bool)) (id : Nat) (b : Bool) :
    List (Nat × Bool) :=
  if st.any fun e => e.1 = id then
    st.map fun e => if e.1 = id then (e.1, b) else e
  else st ++ [(id, b)]

/-- Assignment through `std::map::operator[]` on `m_connected_devices`:
update the value if the key is present, insert it otherwise. -/
def map_insert (l : Registry) (id : Nat) (d : connected_device) : Registry :=
  if l.any fun e => e.1 = id then
    l.map fun e => if e.1 = id then (e.1, d) else e
  else l ++ [(id, d)]

/-- The registry entry constructed for a newly seen supported bus device:
a fresh surrogate id, the descriptor fields read through the transient
open, an unclaimed flag, and the linkmasta device built over the handle
(the built object is opaque; its tag records the handle it wraps). -/
def build_entry (next : Nat) (b : bus_device) : connected_device :=
  { id := next
    vendor_id := b.idVendor
    product_id := b.idProduct
    manufacturer_string := b.manufacturer
    product_string := b.product
    serial_number := b.serial
    device := b.handle
    linkmasta := b.handle
    claimed := false }

/-- The loop state of one reconciliation pass: the registry, the
`device_status` seen-marks, and the id counter. -/
structure refresh_acc where
  connected : Registry
  status : List (Nat × Bool)
  next_id : Nat
deriving DecidableEq, Repr

/-- One iteration of the per-bus-device loop of `refresh_device_list`:
skip unsupported devices; mark the matching registry entry (by native
handle identity) as seen; otherwise create and insert a new entry and
retain the handle. -/
def refresh_step (acc : refresh_acc) (b : bus_device) : refresh_acc :=
  if is_supported b.idVendor b.idProduct then
    match acc.connected.find? fun e => e.2.device = b.handle with
    | some e => { acc with status := status_set acc.status e.1 true }
    | none =>
      { connected := map_insert acc.connected acc.next_id (build_entry acc.next_id b)
        status := acc.status
        next_id := acc.next_id + 1 }
  else acc

/-- The marking/creation phase of `refresh_device_list`: seed the status
table with every existing entry marked not-found, then process each
visible bus device in order. -/
def refresh_scan (m : libusb_device_manager) (bus : List bus_device) :
    refresh_acc :=
  bus.foldl refresh_step
    { connected := m.connected
      status := m.connected.map fun e => (e.1, false)
      next_id := m.next_id }

/-- One iteration of the removal loop: an entry that was not found this
pass and is not claimed has its linkmasta destroyed (errors swallowed),
its handle released, and its entry erased.  (When the status key is
absent from the registry, C++ `operator[]` would default-insert an
unclaimed placeholder and immediately erase it again, a net no-op; that
case never arises during a pass.) -/
def remove_step (conn : Registry) (e : Nat × Bool) : Registry :=
  if e.2 then conn
  else
    match conn.lookup e.1 with
    | some d => if d.claimed then conn else conn.filter fun x => x.1 ≠ e.1
    | none => conn

/-- The removal phase of `refresh_device_list`: walk the status table and
remove the entries that were not found and are not claimed. -/
def refresh_prune (st : List (Nat × Bool)) (conn : Registry) : Registry :=
  st.foldl remove_step conn

/-- `refresh_device_list()`: one reconciliation pass of the registry
against the bus state `bus` (the list `libusb_get_device_list` returns,
with each device's descriptor fields). -/
def refresh_device_list (m : libusb_device_manager) (bus : List bus_device) :
    libusb_device_manager :=
  let acc := refresh_scan m bus
  { connected := refresh_prune acc.status acc.connected
    next_id := acc.next_id }

/-- Whether the entry `d` is seen during a pass over `bus`: some visible,
supported bus device carries `d`'s native handle. -/
def seenb (bus : List bus_device) (d : connected_device) : Bool :=
  bus.any fun b => is_supported b.idVendor b.idProduct && b.handle == d.device

/-- The state invariants of a manager: surrogate ids are unique and below
the id counter, and native handles are unique (spec §3: exactly one entry
per connected device). -/
def mgr_inv (m : libusb_device_manager) : Prop :=
  (keys m.connected).Nodup
  ∧ (∀ e ∈ m.connected, e.1 < m.next_id)
  ∧ (m.connected.map fun e => e.2.device).Nodup

/-! ## Reconciliation pass invariant

`ScanInv base n0 done acc` relates the loop state `acc` of the
marking/creation phase to the registry `base` and id counter `n0` the
pass started from, after the bus devices in `done` have been processed. -/

/-- Invariant of the per-bus-device loop of `refresh_device_list`. -/
structure ScanInv (base : Registry) (n0 : Nat) (done : List bus_device)
    (acc : refresh_acc) : Prop where
  conn_keys_nodup : (keys acc.connected).Nodup
  conn_handles_nodup : (acc.connected.map fun e => e.2.device).Nodup
  keys_lt : ∀ e ∈ acc.connected, e.1 < acc.next_id
  n0_le : n0 ≤ acc.next_id
  conn_split : ∃ news, acc.connected = base ++ news ∧
    ∀ e ∈ news, n0 ≤ e.1 ∧ e.2.claimed = false ∧
      ∃ b ∈ done, is_supported b.idVendor b.idProduct = true ∧ e.2.device = b.handle
  status_false_base : ∀ p ∈ acc.status, p.2 = false → p.1 ∈ keys base
  status_keys_nodup : (acc.status.map Prod.fst).Nodup
  status_base_some : ∀ id ∈ keys base, (acc.status.lookup id).isSome = true
  seen_iff : ∀ id d, base.lookup id = some d →
    (acc.status.lookup id = some true ↔
      ∃ b ∈ done, is_supported b.idVendor b.idProduct = true ∧ b.handle = d.device)
  cover : ∀ b ∈ done, is_supported b.idVendor b.idProduct = true →
    ∃ id d, acc.connected.lookup id = some d ∧ d.device = b.handle ∧
      (acc.status.lookup id = some true ∨ id ∉ keys base)

/-! ## Concrete fixtures used by the witness theorems -/

/-- A chip controller over a freshly erased simulated chip. -/
def chip0 : ngp_chip :=
  { m_mode := chip_mode.READ
    m_last_erased_addr := 0
    m_supports_bypass := false
    m_chip_num := 0
    mem := fun _ => 255
    m_erase_polls := 0 }

/-- A chip whose every byte holds `0xF0`. -/
def chip240 : ngp_chip := { chip0 with mem := fun _ => 240 }

/-- A simulated erase that completes at the third poll. -/
def done_at2 : Nat → Bool := fun n => decide (2 ≤ n)

/-- A registry entry for a connected NGP linkmasta, unclaimed. -/
def dev5 : connected_device :=
  { id := 5
    vendor_id := 0x20A0
    product_id := 0x4178
    manufacturer_string := "7400 Circuits"
    product_string := "NGP Linkmasta"
    serial_number := "123"
    device := 77
    linkmasta := 77
    claimed := false }

/-- The same entry, claimed. -/
def dev5c : connected_device := { dev5 with claimed := true }

/-- A fresh, empty manager. -/
def mgr0 : libusb_device_manager := { connected := [], next_id := 0 }

/-- A manager holding the unclaimed entry `dev5`. -/
def mgr1 : libusb_device_manager := { connected := [(5, dev5)], next_id := 6 }

/-- A manager holding the claimed entry `dev5c`. -/
def mgr1c : libusb_device_manager := { connected := [(5, dev5c)], next_id := 6 }

/-- A bus on which the device behind `dev5` is visible. -/
def busA : List bus_device :=
  [{ handle := 77, idVendor := 0x20A0, idProduct := 0x4178,
     manufacturer := "7400 Circuits", product := "NGP Linkmasta", serial := "123" }]

/-- A bus carrying only a device with an unsupported product id. -/
def busU : List bus_device :=
  [{ handle := 88, idVendor := 0x20A0, idProduct := 0x1111,
     manufacturer := "m", product := "p", serial := "s" }]

/-! ## Chip controller: theorems -/

theorem run_obs_eq (c : ngp_chip) (op : obs_call) : run_obs c op = c := by
  cases op <;> rfl

theorem foldl_run_obs (c : ngp_chip) (l : List obs_call) :
    l.foldl run_obs c = c := by
  induction l with
  | nil => rfl
  | cons op l ih => rw [List.foldl_cons, run_obs_eq, ih]

theorem read_bytes_go_count (c : ngp_chip) (addr k : Nat) :
    ∀ (n d : Nat) (acc : List Nat), d ≤ k →
      (read_bytes_go c addr (some (cancel_after k)) n d acc).2 = min k (d + n) := by
  intro n
  induction n with
  | zero => intro d acc hd; simp only [read_bytes_go]; omega
  | succ n ih =>
    intro d acc hd
    by_cases hk : k ≤ d
    · have hkd : (cancel_after k) d = true := by
        simp [cancel_after, hk]
      simp only [read_bytes_go, hkd, if_true]
      omega
    · have hkd : (cancel_after k) d = false := by
        simp [cancel_after]; omega
      simp only [read_bytes_go, hkd, if_false, Bool.false_eq_true]
      rw [ih (d + 1) _ (by omega)]
      omega

theorem read_bytes_go_count_none (c : ngp_chip) (addr : Nat) :
    ∀ (n d : Nat) (acc : List Nat),
      (read_bytes_go c addr none n d acc).2 = d + n := by
  intro n
  induction n with
  | zero => intro d acc; simp [read_bytes_go]
  | succ n ih =>
    intro d acc
    simp only [read_bytes_go]
    rw [ih (d + 1)]
    omega

theorem program_bytes_go_count (addr : Nat) (data : List Nat) (k : Nat) :
    ∀ (n d : Nat) (c : ngp_chip), d ≤ k →
      (program_bytes_go addr data (some (cancel_after k)) n d c).2 = min k (d + n) := by
  intro n
  induction n with
  | zero => intro d c hd; simp only [program_bytes_go]; omega
  | succ n ih =>
    intro d c hd
    by_cases hk : k ≤ d
    · have hkd : (cancel_after k) d = true := by
        simp [cancel_after, hk]
      simp only [program_bytes_go, hkd, if_true]
      omega
    · have hkd : (cancel_after k) d = false := by
        simp [cancel_after]; omega
      simp only [program_bytes_go, hkd, if_false, Bool.false_eq_true]
      rw [ih (d + 1) _ (by omega)]
      omega

theorem program_bytes_go_count_none (addr : Nat) (data : List Nat) :
    ∀ (n d : Nat) (c : ngp_chip),
      (program_bytes_go addr data none n d c).2 = d + n := by
  intro n
  induction n with
  | zero => intro d c; simp [program_bytes_go]
  | succ n ih =>
    intro d c
    simp only [program_bytes_go]
    rw [ih (d + 1)]
    omega

/-- C3: for every address, byte count `n`, and cancellation source that
first signals cancellation after exactly `k` transferred units
(`0 ≤ k ≤ n`), `read_bytes` and `program_bytes` stop early and return
exactly `k` as the transferred count (a partial count, not an error), and
with no cancellation source the returned count equals `n`. -/
theorem spec_c3 (c : ngp_chip) (address n k : Nat) (data : List Nat) :
    (k ≤ n → (read_bytes c address n (some (cancel_after k))).2 = k)
    ∧ (k ≤ n → (program_bytes c address data n (some (cancel_after k))).2 = k)
    ∧ (read_bytes c address n none).2 = n
    ∧ (program_bytes c address data n none).2 = n := by
  refine ⟨fun hk => ?_, fun hk => ?_, ?_, ?_⟩
  · rw [read_bytes, read_bytes_go_count c address k n 0 [] (Nat.zero_le k)]
    omega
  · rw [program_bytes, program_bytes_go_count address data k n 0 c (Nat.zero_le k)]
    omega
  · rw [read_bytes, read_bytes_go_count_none c address n 0 []]
    omega
  · rw [program_bytes, program_bytes_go_count_none address data n 0 c]
    omega

/-- C3 witness: the theorem instantiated at a concrete chip, count 3 and
cancellation after 2 units. -/
theorem spec_c3_w :
    (read_bytes chip0 0 3 (some (cancel_after 2))).2 = 2
    ∧ (program_bytes chip0 0 [1, 2, 3] 3 (some (cancel_after 2))).2 = 2
    ∧ (read_bytes chip0 0 3 none).2 = 3
    ∧ (program_bytes chip0 0 [1, 2, 3] 3 none).2 = 3 :=
  ⟨(spec_c3 chip0 0 3 2 [1, 2, 3]).1 (by decide),
   (spec_c3 chip0 0 3 2 [1, 2, 3]).2.1 (by decide),
   (spec_c3 chip0 0 3 2 [1, 2, 3]).2.2.1,
   (spec_c3 chip0 0 3 2 [1, 2, 3]).2.2.2⟩

/-- C4: after `erase_chip()` or `erase_block()` the belief-state is
ERASE; `is_erasing()` and `current_mode()` read the cached state without
touching hardware, so any number of them leaves the state untouched and
the belief-state stays ERASE; `test_erasing()` (the only operation
performing a hardware completion poll) moves the belief-state to READ
exactly when the poll reports completion. -/
theorem spec_c4 (c : ngp_chip) (block_address : Nat) (done : Nat → Bool) :
    (erase_chip c).m_mode = chip_mode.ERASE
    ∧ (erase_block c block_address).m_mode = chip_mode.ERASE
    ∧ (∀ l : List obs_call, l.foldl run_obs c = c)
    ∧ (∀ l : List obs_call,
        (l.foldl run_obs (erase_chip c)).m_mode = chip_mode.ERASE)
    ∧ (c.m_mode = chip_mode.ERASE →
        ((test_erasing done c).2.m_mode = chip_mode.READ ↔
          done c.m_erase_polls = true))
    ∧ (c.m_mode = chip_mode.ERASE → done c.m_erase_polls = false →
        (test_erasing done c).2.m_mode = chip_mode.ERASE)
    ∧ (test_erasing done c).2.m_erase_polls = c.m_erase_polls + 1 := by
  refine ⟨rfl, rfl, foldl_run_obs c, fun l => ?_, fun hm => ?_, fun hm hd => ?_, rfl⟩
  · rw [foldl_run_obs]; rfl
  · cases hd : done c.m_erase_polls <;> simp [test_erasing, hd, hm]
  · simp [test_erasing, hd, hm]

/-- C4 witness: the theorem applied to a chip after `erase_chip`, with a
simulated erase completing at the third poll. -/
theorem spec_c4_w :
    (erase_chip chip0).m_mode = chip_mode.ERASE
    ∧ ([obs_call.obs_is_erasing, obs_call.obs_current_mode].foldl run_obs
        (erase_chip chip0)).m_mode = chip_mode.ERASE
    ∧ (test_erasing done_at2 (erase_chip chip0)).2.m_mode = chip_mode.ERASE
    ∧ (test_erasing (fun _ => true) (erase_chip chip0)).2.m_mode = chip_mode.READ :=
  ⟨(spec_c4 chip0 0 done_at2).1,
   (spec_c4 chip0 0 done_at2).2.2.2.1 [obs_call.obs_is_erasing, obs_call.obs_current_mode],
   (spec_c4 (erase_chip chip0) 0 done_at2).2.2.2.2.2.1 rfl (by decide),
   ((spec_c4 (erase_chip chip0) 0 (fun _ => true)).2.2.2.2.1 rfl).mpr rfl⟩

/-- C8: `program_byte` is monotonically bit-clearing on the simulated
chip: the programmed byte is the AND of the old byte and the data, so no
bit that was 0 becomes 1; other addresses are untouched; and the checked
test double accepts the attempt precisely when it would set no
previously-0 bit. -/
theorem spec_c8 (c : ngp_chip) (address data : Nat) :
    (program_byte c address data).mem address = c.mem address &&& data
    ∧ ((program_byte c address data).mem address ||| c.mem address) = c.mem address
    ∧ (∀ i, ((program_byte c address data).mem address).testBit i = true →
        (c.mem address).testBit i = true)
    ∧ (∀ x, x ≠ address → (program_byte c address data).mem x = c.mem x)
    ∧ ((program_byte_checked c address data).isOk = true ↔
        c.mem address &&& data = data) := by
  have hmem : (program_byte c address data).mem address = c.mem address &&& data := by
    simp [program_byte]
  refine ⟨hmem, ?_, ?_, ?_, ?_⟩
  · rw [hmem]
    apply Nat.eq_of_testBit_eq
    intro i
    simp only [Nat.testBit_or, Nat.testBit_and]
    cases hx : (c.mem address).testBit i <;> simp
  · intro i hi
    rw [hmem] at hi
    rw [Nat.testBit_and, Bool.and_eq_true] at hi
    exact hi.1
  · intro x hx
    simp [program_byte, hx]
  · unfold program_byte_checked
    split
    · rename_i h
      simp [Except.isOk, Except.toBool, h]
    · rename_i h
      simp [Except.isOk, Except.toBool, h]

/-- C8 witness: programming `0x0F` over a byte holding `0xF0` clears all
bits, leaves other addresses alone, and is rejected by the checked
double. -/
theorem spec_c8_w :
    (program_byte chip240 3 15).mem 3 = 0
    ∧ (program_byte chip240 3 15).mem 0 = 240
    ∧ (program_byte_checked chip240 3 15).isOk = false := by
  refine ⟨(spec_c8 chip240 3 15).1.trans (by decide), ?_, ?_⟩
  · exact ((spec_c8 chip240 3 15).2.2.2.1 0 (by decide)).trans (by decide)
  · cases hk : (program_byte_checked chip240 3 15).isOk with
    | false => rfl
    | true => exact absurd ((spec_c8 chip240 3 15).2.2.2.2.mp hk) (by decide)

/-! ## Association-list toolkit -/

theorem lookup_cons_eq_if {β : Type} (a k : Nat) (x : β) (l : List (Nat × β)) :
    List.lookup a ((k, x) :: l) = if a = k then some x else List.lookup a l := by
  rw [List.lookup_cons]
  by_cases h : a = k
  · simp [h]
  · have hb : (a == k) = false := beq_eq_false_iff_ne.mpr h
    simp [hb, h]

theorem lookup_mem {β : Type} {l : List (Nat × β)} {a : Nat} {b : β}
    (h : l.lookup a = some b) : (a, b) ∈ l := by
  induction l with
  | nil => simp [List.lookup] at h
  | cons e l ih =>
    obtain ⟨k, x⟩ := e
    rw [lookup_cons_eq_if] at h
    by_cases hk : a = k
    · rw [if_pos hk] at h
      obtain rfl := Option.some.inj h
      simp [hk]
    · rw [if_neg hk] at h
      exact List.mem_cons_of_mem _ (ih h)

theorem mem_lookup {β : Type} {l : List (Nat × β)} {a : Nat} {b : β}
    (hnd : (l.map Prod.fst).Nodup) (h : (a, b) ∈ l) : l.lookup a = some b := by
  induction l with
  | nil => simp at h
  | cons e l ih =>
    obtain ⟨k, x⟩ := e
    rw [List.map_cons, List.nodup_cons] at hnd
    rw [lookup_cons_eq_if]
    rcases List.mem_cons.mp h with heq | hmem
    · obtain ⟨rfl, rfl⟩ := Prod.mk.injEq .. ▸ heq
      · simp
    · by_cases hk : a = k
      · subst hk
        exact absurd (List.mem_map_of_mem Prod.fst hmem) hnd.1
      · rw [if_neg hk]
        exact ih hnd.2 hmem

theorem lookup_isSome_iff {β : Type} (l : List (Nat × β)) (a : Nat) :
    (l.lookup a).isSome = true ↔ a ∈ l.map Prod.fst := by
  induction l with
  | nil => simp [List.lookup]
  | cons e l ih =>
    obtain ⟨k, x⟩ := e
    rw [lookup_cons_eq_if]
    by_cases hk : a = k
    · simp [hk]
    · simp [hk, ih]

theorem lookup_eq_none_iff {β : Type} (l : List (Nat × β)) (a : Nat) :
    l.lookup a = none ↔ a ∉ l.map Prod.fst := by
  rw [← lookup_isSome_iff]
  cases l.lookup a <;> simp

theorem lookup_append_left {β : Type} {l₁ l₂ : List (Nat × β)} {a : Nat} {b : β}
    (h : l₁.lookup a = some b) : (l₁ ++ l₂).lookup a = some b := by
  induction l₁ with
  | nil => simp [List.lookup] at h
  | cons e l ih =>
    obtain ⟨k, x⟩ := e
    rw [lookup_cons_eq_if] at h
    rw [List.cons_append, lookup_cons_eq_if]
    by_cases hk : a = k
    · rwa [if_pos hk] at h ⊢
    · rw [if_neg hk] at h ⊢
      exact ih h

theorem lookup_append_right {β : Type} {l₁ l₂ : List (Nat × β)} {a : Nat}
    (h : l₁.lookup a = none) : (l₁ ++ l₂).lookup a = l₂.lookup a := by
  induction l₁ with
  | nil => simp
  | cons e l ih =>
    obtain ⟨k, x⟩ := e
    rw [lookup_cons_eq_if] at h
    rw [List.cons_append, lookup_cons_eq_if]
    by_cases hk : a = k
    · rw [if_pos hk] at h
      exact absurd h (by simp)
    · rw [if_neg hk] at h ⊢
      exact ih h

theorem seed_lookup (l : Registry) (a : Nat) :
    (l.map fun e => (e.1, false)).lookup a
      = (l.lookup a).map (fun _ => false) := by
  induction l with
  | nil => simp [List.lookup]
  | cons e l ih =>
    obtain ⟨k, x⟩ := e
    rw [List.map_cons, lookup_cons_eq_if, lookup_cons_eq_if]
    by_cases hk : a = k
    · simp [hk]
    · simp only [if_neg hk]
      exact ih

theorem lookup_setmap_self {β : Type} (l : List (Nat × β)) (id : Nat) (b : β) :
    ((l.map fun e => if e.1 = id then (e.1, b) else e).lookup id)
      = (l.lookup id).map (fun _ => b) := by
  induction l with
  | nil => simp [List.lookup]
  | cons e l ih =>
    obtain ⟨k, x⟩ := e
    by_cases hk : k = id
    · rw [List.map_cons, if_pos hk]
      rw [lookup_cons_eq_if, lookup_cons_eq_if]
      simp [hk]
    · rw [List.map_cons, if_neg hk]
      rw [lookup_cons_eq_if, lookup_cons_eq_if]
      have hk' : ¬ id = k := fun h => hk h.symm
      simp only [if_neg hk']
      exact ih

theorem lookup_setmap_ne {β : Type} (l : List (Nat × β)) (id a : Nat) (b : β)
    (ha : a ≠ id) :
    ((l.map fun e => if e.1 = id then (e.1, b) else e).lookup a) = l.lookup a := by
  induction l with
  | nil => simp
  | cons e l ih =>
    obtain ⟨k, x⟩ := e
    by_cases hk : k = id
    · rw [List.map_cons, if_pos hk]
      rw [lookup_cons_eq_if, lookup_cons_eq_if]
      have ha' : ¬ a = k := fun h => ha (h.trans hk)
      simp only [if_neg ha']
      exact ih
    · rw [List.map_cons, if_neg hk]
      rw [lookup_cons_eq_if, lookup_cons_eq_if]
      by_cases hak : a = k
      · simp [hak]
      · simp only [if_neg hak]
        exact ih

theorem any_key_iff {β : Type} (l : List (Nat × β)) (id : Nat) :
    (l.any fun e => e.1 = id) = true ↔ id ∈ l.map Prod.fst := by
  rw [List.any_eq_true]
  simp only [decide_eq_true_eq]
  constructor
  · rintro ⟨e, he, hfst⟩
    exact hfst ▸ List.mem_map_of_mem Prod.fst he
  · intro hmem
    obtain ⟨e, he, hfst⟩ := List.mem_map.mp hmem
    exact ⟨e, he, hfst⟩

theorem status_set_lookup_self (st : List (Nat × Bool)) (id : Nat) (b : Bool) :
    (status_set st id b).lookup id = some b := by
  unfold status_set
  by_cases h : (st.any fun e => e.1 = id) = true
  · rw [if_pos h, lookup_setmap_self]
    obtain ⟨v, hv⟩ := Option.isSome_iff_exists.mp
      ((lookup_isSome_iff st id).mpr ((any_key_iff st id).mp h))
    rw [hv]
    rfl
  · rw [if_neg h]
    rw [lookup_append_right ((lookup_eq_none_iff st id).mpr
      fun hmem => h ((any_key_iff st id).mpr hmem))]
    simp [lookup_cons_eq_if]

theorem status_set_lookup_ne (st : List (Nat × Bool)) (id a : Nat) (b : Bool)
    (ha : a ≠ id) :
    (status_set st id b).lookup a = st.lookup a := by
  unfold status_set
  by_cases h : (st.any fun e => e.1 = id) = true
  · rw [if_pos h]
    exact lookup_setmap_ne st id a b ha
  · rw [if_neg h]
    cases hl : st.lookup a with
    | some v => rw [lookup_append_left hl]
    | none =>
      rw [lookup_append_right hl, lookup_cons_eq_if, if_neg ha]
      rfl

theorem status_set_mem_false (st : List (Nat × Bool)) (id : Nat)
    (p : Nat × Bool) (hp : p ∈ status_set st id true) (hf : p.2 = false) :
    p ∈ st := by
  unfold status_set at hp
  by_cases h : (st.any fun e => e.1 = id) = true
  · rw [if_pos h] at hp
    obtain ⟨e, he, heq⟩ := List.mem_map.mp hp
    by_cases hid : e.1 = id
    · rw [if_pos hid] at heq
      rw [← heq] at hf
      simp at hf
    · rw [if_neg hid] at heq
      exact heq ▸ he
  · rw [if_neg h] at hp
    rcases List.mem_append.mp hp with hmem | hmem
    · exact hmem
    · rw [List.mem_singleton] at hmem
      rw [hmem] at hf
      simp at hf

theorem status_set_keys_nodup (st : List (Nat × Bool)) (id : Nat) (b : Bool)
    (h : (st.map Prod.fst).Nodup) :
    ((status_set st id b).map Prod.fst).Nodup := by
  unfold status_set
  by_cases ha : (st.any fun e => e.1 = id) = true
  · rw [if_pos ha]
    have hkeys : ((st.map fun e => if e.1 = id then (e.1, b) else e).map Prod.fst)
        = st.map Prod.fst := by
      rw [List.map_map]
      apply List.map_congr_left
      intro e _
      by_cases hid : e.1 = id <;> simp [hid]
    rwa [hkeys]
  · rw [if_neg ha, List.map_append]
    rw [List.nodup_append]
    refine ⟨h, List.nodup_singleton _, ?_⟩
    intro a hmem hmem'
    simp only [List.map_cons, List.map_nil, List.mem_singleton] at hmem'
    rw [hmem'] at hmem
    exact ha ((any_key_iff st id).mpr hmem)

theorem map_insert_fresh (l : Registry) (id : Nat) (d : connected_device)
    (h : id ∉ l.map Prod.fst) :
    map_insert l id d = l ++ [(id, d)] := by
  unfold map_insert
  rw [if_neg fun ha => h ((any_key_iff l id).mp ha)]

theorem lookup_fmap_self {β : Type} (l : List (Nat × β)) (id : Nat) (g : β → β) :
    ((l.map fun e => if e.1 = id then (e.1, g e.2) else e).lookup id)
      = (l.lookup id).map g := by
  induction l with
  | nil => simp [List.lookup]
  | cons e l ih =>
    obtain ⟨k, x⟩ := e
    by_cases hk : k = id
    · rw [List.map_cons, if_pos hk]
      rw [lookup_cons_eq_if, lookup_cons_eq_if]
      simp [hk]
    · rw [List.map_cons, if_neg hk]
      rw [lookup_cons_eq_if, lookup_cons_eq_if]
      have hk' : ¬ id = k := fun h => hk h.symm
      simp only [if_neg hk']
      exact ih

theorem lookup_fmap_ne {β : Type} (l : List (Nat × β)) (id a : Nat) (g : β → β)
    (ha : a ≠ id) :
    ((l.map fun e => if e.1 = id then (e.1, g e.2) else e).lookup a)
      = l.lookup a := by
  induction l with
  | nil => simp
  | cons e l ih =>
    obtain ⟨k, x⟩ := e
    by_cases hk : k = id
    · rw [List.map_cons, if_pos hk]
      rw [lookup_cons_eq_if, lookup_cons_eq_if]
      have ha' : ¬ a = k := fun h => ha (h.trans hk)
      simp only [if_neg ha']
      exact ih
    · rw [List.map_cons, if_neg hk]
      rw [lookup_cons_eq_if, lookup_cons_eq_if]
      by_cases hak : a = k
      · simp [hak]
      · simp only [if_neg hak]
        exact ih

theorem lookup_update_entry_self (l : Registry) (id : Nat)
    (f : connected_device → connected_device) :
    (update_entry l id f).lookup id = (l.lookup id).map f :=
  lookup_fmap_self l id f

theorem lookup_update_entry_ne (l : Registry) (id a : Nat)
    (f : connected_device → connected_device) (ha : a ≠ id) :
    (update_entry l id f).lookup a = l.lookup a :=
  lookup_fmap_ne l id a f ha

theorem keys_update_entry (l : Registry) (id : Nat)
    (f : connected_device → connected_device) :
    keys (update_entry l id f) = keys l := by
  unfold update_entry keys
  rw [List.map_map]
  apply List.map_congr_left
  intro e _
  by_cases hid : e.1 = id <;> simp [hid]

theorem devices_update_entry (l : Registry) (id : Nat)
    (f : connected_device → connected_device)
    (hf : ∀ d, (f d).device = d.device) :
    (update_entry l id f).map (fun e => e.2.device)
      = l.map (fun e => e.2.device) := by
  unfold update_entry
  rw [List.map_map]
  apply List.map_congr_left
  intro e _
  by_cases hid : e.1 = id <;> simp [hid, hf]

theorem lookup_filter_key_self {β : Type} (l : List (Nat × β)) (k : Nat) :
    (l.filter fun x => x.1 ≠ k).lookup k = none := by
  rw [lookup_eq_none_iff]
  intro hmem
  obtain ⟨x, hx, hfst⟩ := List.mem_map.mp hmem
  have := (List.mem_filter.mp hx).2
  simp only [decide_eq_true_eq] at this
  exact this hfst

theorem lookup_filter_key_ne {β : Type} (l : List (Nat × β)) (k a : Nat)
    (ha : a ≠ k) :
    (l.filter fun x => x.1 ≠ k).lookup a = l.lookup a := by
  induction l with
  | nil => rfl
  | cons e l ih =>
    obtain ⟨k', x⟩ := e
    by_cases hk : k' ≠ k
    · rw [List.filter_cons_of_pos (by simp [hk])]
      rw [lookup_cons_eq_if, lookup_cons_eq_if, ih]
    · push_neg at hk
      rw [List.filter_cons_of_neg (by simp [hk])]
      rw [lookup_cons_eq_if, if_neg (hk ▸ ha : ¬ a = k'), ih]

theorem mem_keys_filter {β : Type} (l : List (Nat × β)) (k a : Nat)
    (ha : a ≠ k) (h : a ∈ l.map Prod.fst) :
    a ∈ (l.filter fun x => x.1 ≠ k).map Prod.fst := by
  rw [List.mem_map] at h ⊢
  obtain ⟨x, hx, rfl⟩ := h
  exact ⟨x, List.mem_filter.mpr ⟨hx, by simpa using ha⟩, rfl⟩

/-! ## The marking/creation phase preserves `ScanInv` -/

theorem scan_inv_step (base : Registry) (n0 : Nat)
    (hbase : ∀ e ∈ base, e.1 < n0)
    (done : List bus_device) (acc : refresh_acc) (b : bus_device)
    (h : ScanInv base n0 done acc) :
    ScanInv base n0 (done ++ [b]) (refresh_step acc b) := by
  by_cases hsup : is_supported b.idVendor b.idProduct = true
  case neg =>
    have hstep : refresh_step acc b = acc := by
      unfold refresh_step
      rw [if_neg hsup]
    rw [hstep]
    refine ⟨h.conn_keys_nodup, h.conn_handles_nodup, h.keys_lt, h.n0_le, ?_,
      h.status_false_base, h.status_keys_nodup, h.status_base_some, ?_, ?_⟩
    · obtain ⟨news, hsplit, hnews⟩ := h.conn_split
      refine ⟨news, hsplit, fun e he => ?_⟩
      obtain ⟨h1, h2, b', hb', h3, h4⟩ := hnews e he
      exact ⟨h1, h2, b', List.mem_append_left _ hb', h3, h4⟩
    · intro id d hd
      rw [h.seen_iff id d hd]
      constructor
      · rintro ⟨b', hb', hs, hh⟩
        exact ⟨b', List.mem_append_left _ hb', hs, hh⟩
      · rintro ⟨b', hb', hs, hh⟩
        rcases List.mem_append.mp hb' with hm | hm
        · exact ⟨b', hm, hs, hh⟩
        · rw [List.mem_singleton] at hm
          subst hm
          exact absurd hs hsup
    · intro b' hb' hs
      rcases List.mem_append.mp hb' with hm | hm
      · exact h.cover b' hm hs
      · rw [List.mem_singleton] at hm
        subst hm
        exact absurd hs hsup
  case pos =>
    cases hf : acc.connected.find? fun e => e.2.device = b.handle with
    | some e =>
      have hstep : refresh_step acc b
          = { acc with status := status_set acc.status e.1 true } := by
        unfold refresh_step
        rw [if_pos hsup, hf]
      rw [hstep]
      have he_mem : e ∈ acc.connected := List.mem_of_find?_eq_some hf
      have he_dev : e.2.device = b.handle := by
        have := List.find?_some hf
        simpa using this
      refine ⟨h.conn_keys_nodup, h.conn_handles_nodup, h.keys_lt, h.n0_le, ?_,
        ?_, ?_, ?_, ?_, ?_⟩
      · obtain ⟨news, hsplit, hnews⟩ := h.conn_split
        refine ⟨news, hsplit, fun x hx => ?_⟩
        obtain ⟨h1, h2, b', hb', h3, h4⟩ := hnews x hx
        exact ⟨h1, h2, b', List.mem_append_left _ hb', h3, h4⟩
      · intro p hp hpf
        exact h.status_false_base p (status_set_mem_false _ _ p hp hpf) hpf
      · exact status_set_keys_nodup _ _ _ h.status_keys_nodup
      · intro id hid
        by_cases hide : id = e.1
        · rw [hide, status_set_lookup_self]
          rfl
        · rw [status_set_lookup_ne _ _ _ _ hide]
          exact h.status_base_some id hid
      · intro id d hd
        have hmem_id : (id, d) ∈ acc.connected := by
          obtain ⟨news, hsplit, _⟩ := h.conn_split
          rw [hsplit]
          exact List.mem_append_left _ (lookup_mem hd)
        by_cases hide : id = e.1
        · have he_eq : e = (id, d) :=
            List.inj_on_of_nodup_map h.conn_keys_nodup he_mem hmem_id
              (show e.1 = id from hide.symm)
          rw [hide, status_set_lookup_self]
          refine Iff.intro (fun _ => ⟨b, List.mem_append_right _ (by simp), hsup, ?_⟩)
            (fun _ => rfl)
          rw [← he_dev, he_eq]
        · rw [status_set_lookup_ne _ _ _ _ hide]
          rw [h.seen_iff id d hd]
          have hne : b.handle ≠ d.device := by
            intro heq
            have he_eq : e = (id, d) :=
              List.inj_on_of_nodup_map h.conn_handles_nodup he_mem hmem_id
                (show e.2.device = d.device by rw [he_dev, heq])
            exact hide (show id = e.1 by rw [he_eq])
          constructor
          · rintro ⟨b', hb', hs, hh⟩
            exact ⟨b', List.mem_append_left _ hb', hs, hh⟩
          · rintro ⟨b', hb', hs, hh⟩
            rcases List.mem_append.mp hb' with hm | hm
            · exact ⟨b', hm, hs, hh⟩
            · rw [List.mem_singleton] at hm
              subst hm
              exact absurd hh hne
      · intro b' hb' hs
        rcases List.mem_append.mp hb' with hm | hm
        · obtain ⟨id, d, hl, hdev, hor⟩ := h.cover b' hm hs
          refine ⟨id, d, hl, hdev, ?_⟩
          rcases hor with htrue | hnb
          · left
            by_cases hide : id = e.1
            · rw [hide, status_set_lookup_self]
            · rw [status_set_lookup_ne _ _ _ _ hide]
              exact htrue
          · right
            exact hnb
        · rw [List.mem_singleton] at hm
          subst hm
          refine ⟨e.1, e.2, ?_, he_dev, Or.inl (status_set_lookup_self _ _ _)⟩
          exact mem_lookup h.conn_keys_nodup (by simpa using he_mem)
    | none =>
      have hnone : ∀ x ∈ acc.connected, x.2.device ≠ b.handle := by
        intro x hx
        have := List.find?_eq_none.mp hf x hx
        simpa using this
      have hfresh : acc.next_id ∉ acc.connected.map Prod.fst := by
        intro hm
        obtain ⟨x, hx, hfst⟩ := List.mem_map.mp hm
        exact absurd (hfst ▸ h.keys_lt x hx) (lt_irrefl _)
      have hins : map_insert acc.connected acc.next_id (build_entry acc.next_id b)
          = acc.connected ++ [(acc.next_id, build_entry acc.next_id b)] :=
        map_insert_fresh _ _ _ hfresh
      have hstep : refresh_step acc b
          = { connected := acc.connected ++ [(acc.next_id, build_entry acc.next_id b)]
              status := acc.status
              next_id := acc.next_id + 1 } := by
        unfold refresh_step
        rw [if_pos hsup, hf, hins]
      rw [hstep]
      refine ⟨?_, ?_, ?_, ?_, ?_, h.status_false_base, h.status_keys_nodup,
        h.status_base_some, ?_, ?_⟩
      · show ((acc.connected ++ [(acc.next_id, build_entry acc.next_id b)]).map Prod.fst).Nodup
        rw [List.map_append, List.nodup_append]
        refine ⟨h.conn_keys_nodup, List.nodup_singleton _, ?_⟩
        intro a ha ha'
        simp only [List.map_cons, List.map_nil, List.mem_singleton] at ha'
        rw [ha'] at ha
        exact hfresh ha
      · show ((acc.connected ++ [(acc.next_id, build_entry acc.next_id b)]).map
          fun e => e.2.device).Nodup
        rw [List.map_append, List.nodup_append]
        refine ⟨h.conn_handles_nodup, List.nodup_singleton _, ?_⟩
        intro a ha ha'
        simp only [List.map_cons, List.map_nil, List.mem_singleton] at ha'
        obtain ⟨x, hx, hdev⟩ := List.mem_map.mp ha
        apply hnone x hx
        rw [hdev, ha']
        rfl
      · intro x hx
        rcases List.mem_append.mp hx with hm | hm
        · exact Nat.lt_succ_of_lt (h.keys_lt x hm)
        · rw [List.mem_singleton] at hm
          rw [hm]
          exact Nat.lt_succ_self _
      · exact Nat.le_trans h.n0_le (Nat.le_succ _)
      · obtain ⟨news, hsplit, hnews⟩ := h.conn_split
        refine ⟨news ++ [(acc.next_id, build_entry acc.next_id b)],
          by rw [hsplit, List.append_assoc], fun x hx => ?_⟩
        rcases List.mem_append.mp hx with hm | hm
        · obtain ⟨h1, h2, b', hb', h3, h4⟩ := hnews x hm
          exact ⟨h1, h2, b', List.mem_append_left _ hb', h3, h4⟩
        · rw [List.mem_singleton] at hm
          subst hm
          exact ⟨h.n0_le, rfl, b, List.mem_append_right _ (by simp), hsup, rfl⟩
      · intro id d hd
        rw [h.seen_iff id d hd]
        have hmem_id : (id, d) ∈ acc.connected := by
          obtain ⟨news, hsplit, _⟩ := h.conn_split
          rw [hsplit]
          exact List.mem_append_left _ (lookup_mem hd)
        have hne : b.handle ≠ d.device :=
          fun heq => hnone (id, d) hmem_id (by rw [← heq])
        constructor
        · rintro ⟨b', hb', hs, hh⟩
          exact ⟨b', List.mem_append_left _ hb', hs, hh⟩
        · rintro ⟨b', hb', hs, hh⟩
          rcases List.mem_append.mp hb' with hm | hm
          · exact ⟨b', hm, hs, hh⟩
          · rw [List.mem_singleton] at hm
            subst hm
            exact absurd hh hne
      · intro b' hb' hs
        rcases List.mem_append.mp hb' with hm | hm
        · obtain ⟨id, d, hl, hdev, hor⟩ := h.cover b' hm hs
          exact ⟨id, d, lookup_append_left hl, hdev, hor⟩
        · rw [List.mem_singleton] at hm
          refine ⟨acc.next_id, build_entry acc.next_id b, ?_, by rw [hm]; rfl, Or.inr ?_⟩
          · rw [lookup_append_right ((lookup_eq_none_iff _ _).mpr hfresh)]
            rw [lookup_cons_eq_if, if_pos rfl]
          · intro hmem
            obtain ⟨x, hx, hfst⟩ := List.mem_map.mp hmem
            have hxlt := hbase x hx
            have hle := h.n0_le
            omega

theorem scan_inv_fold (base : Registry) (n0 : Nat)
    (hbase : ∀ e ∈ base, e.1 < n0) :
    ∀ (bus done : List bus_device) (acc : refresh_acc),
      ScanInv base n0 done acc →
      ScanInv base n0 (done ++ bus) (bus.foldl refresh_step acc) := by
  intro bus
  induction bus with
  | nil =>
    intro done acc h
    simpa using h
  | cons b bs ih =>
    intro done acc h
    have h' := ih (done ++ [b]) _ (scan_inv_step base n0 hbase done acc b h)
    rw [show done ++ b :: bs = (done ++ [b]) ++ bs by simp] 
    exact h'

theorem scan_inv_init (m : libusb_device_manager) (hinv : mgr_inv m) :
    ScanInv m.connected m.next_id []
      { connected := m.connected
        status := m.connected.map fun e => (e.1, false)
        next_id := m.next_id } := by
  obtain ⟨hk, hlt, hh⟩ := hinv
  refine ⟨hk, hh, hlt, Nat.le_refl _, ⟨[], (List.append_nil _).symm, by simp⟩,
    ?_, ?_, ?_, ?_, ?_⟩
  · intro p hp _
    obtain ⟨e, he, heq⟩ := List.mem_map.mp hp
    rw [← heq]
    exact List.mem_map_of_mem Prod.fst he
  · have hkeys : ((m.connected.map fun e => (e.1, false)).map Prod.fst)
        = m.connected.map Prod.fst := by
      rw [List.map_map]
      exact List.map_congr_left fun e _ => rfl
    show ((m.connected.map fun e => (e.1, false)).map Prod.fst).Nodup
    rw [hkeys]
    exact hk
  · intro id hid
    rw [seed_lookup]
    obtain ⟨v, hv⟩ := Option.isSome_iff_exists.mp ((lookup_isSome_iff _ _).mpr hid)
    rw [hv]
    rfl
  · intro id d hd
    rw [seed_lookup, hd]
    simp
  · intro b hb
    simp at hb

theorem scan_inv_final (m : libusb_device_manager) (bus : List bus_device)
    (hinv : mgr_inv m) :
    ScanInv m.connected m.next_id bus (refresh_scan m bus) := by
  have h := scan_inv_fold m.connected m.next_id hinv.2.1 bus []
    { connected := m.connected
      status := m.connected.map fun e => (e.1, false)
      next_id := m.next_id } (scan_inv_init m hinv)
  simpa [refresh_scan] using h

/-! ## The removal phase -/

theorem remove_step_lookup_ne (conn : Registry) (e : Nat × Bool) (a : Nat)
    (ha : a ≠ e.1) : (remove_step conn e).lookup a = conn.lookup a := by
  unfold remove_step
  split
  · rfl
  · cases hl : conn.lookup e.1 with
    | some d =>
      dsimp only
      split
      · rfl
      · exact lookup_filter_key_ne conn e.1 a ha
    | none =>
      rfl

theorem remove_step_lookup_none (conn : Registry) (e : Nat × Bool) (a : Nat)
    (h : conn.lookup a = none) : (remove_step conn e).lookup a = none := by
  unfold remove_step
  split
  · exact h
  · cases hl : conn.lookup e.1 with
    | some d =>
      dsimp only
      split
      · exact h
      · by_cases ha : a = e.1
        · rw [ha]
          exact lookup_filter_key_self conn e.1
        · rw [lookup_filter_key_ne conn e.1 a ha]
          exact h
    | none =>
      exact h

theorem remove_step_sublist (conn : Registry) (e : Nat × Bool) :
    (remove_step conn e).Sublist conn := by
  unfold remove_step
  split
  · exact List.Sublist.refl _
  · cases hl : conn.lookup e.1 with
    | some d =>
      dsimp only
      split
      · exact List.Sublist.refl _
      · exact List.filter_sublist conn
    | none =>
      exact List.Sublist.refl _

theorem prune_lookup_none_key : ∀ (st : List (Nat × Bool)) (conn : Registry) (a : Nat),
    st.lookup a = none →
    (refresh_prune st conn).lookup a = conn.lookup a := by
  intro st
  induction st with
  | nil => intro conn a _; rfl
  | cons e st ih =>
    obtain ⟨k, v⟩ := e
    intro conn a h
    rw [lookup_cons_eq_if] at h
    by_cases hk : a = k
    · rw [if_pos hk] at h
      exact absurd h (by simp)
    · rw [if_neg hk] at h
      show (refresh_prune st (remove_step conn (k, v))).lookup a = conn.lookup a
      rw [ih (remove_step conn (k, v)) a h]
      exact remove_step_lookup_ne conn (k, v) a hk

theorem prune_lookup_none_conn : ∀ (st : List (Nat × Bool)) (conn : Registry) (a : Nat),
    conn.lookup a = none →
    (refresh_prune st conn).lookup a = none := by
  intro st
  induction st with
  | nil => intro conn a h; exact h
  | cons e st ih =>
    intro conn a h
    show (refresh_prune st (remove_step conn e)).lookup a = none
    exact ih (remove_step conn e) a (remove_step_lookup_none conn e a h)

theorem prune_lookup_true : ∀ (st : List (Nat × Bool)),
    (st.map Prod.fst).Nodup → ∀ (conn : Registry) (a : Nat),
    st.lookup a = some true →
    (refresh_prune st conn).lookup a = conn.lookup a := by
  intro st
  induction st with
  | nil => intro _ conn a h; simp [List.lookup] at h
  | cons e st ih =>
    obtain ⟨k, v⟩ := e
    intro hnd conn a h
    rw [List.map_cons, List.nodup_cons] at hnd
    rw [lookup_cons_eq_if] at h
    show (refresh_prune st (remove_step conn (k, v))).lookup a = conn.lookup a
    by_cases hk : a = k
    · rw [if_pos hk] at h
      have hv : v = true := Option.some.inj h
      have hstep : remove_step conn (k, v) = conn := by
        simp [remove_step, hv]
      rw [hstep, prune_lookup_none_key st conn a]
      rw [hk]
      exact (lookup_eq_none_iff st k).mpr hnd.1
    · rw [if_neg hk] at h
      rw [ih hnd.2 (remove_step conn (k, v)) a h]
      exact remove_step_lookup_ne conn (k, v) a hk

theorem prune_lookup_false : ∀ (st : List (Nat × Bool)),
    (st.map Prod.fst).Nodup → ∀ (conn : Registry) (a : Nat) (d : connected_device),
    st.lookup a = some false → conn.lookup a = some d →
    (refresh_prune st conn).lookup a = if d.claimed then some d else none := by
  intro st
  induction st with
  | nil => intro _ conn a d h _; simp [List.lookup] at h
  | cons e st ih =>
    obtain ⟨k, v⟩ := e
    intro hnd conn a d h hc
    rw [List.map_cons, List.nodup_cons] at hnd
    rw [lookup_cons_eq_if] at h
    show (refresh_prune st (remove_step conn (k, v))).lookup a
      = if d.claimed then some d else none
    by_cases hk : a = k
    · rw [if_pos hk] at h
      have hv : v = false := Option.some.inj h
      have hlk : conn.lookup k = some d := hk ▸ hc
      cases hcl : d.claimed
      · have hstep : remove_step conn (k, v) = conn.filter fun x => x.1 ≠ k := by
          simp [remove_step, hv, hlk, hcl]
        rw [hstep]
        simp only [Bool.false_eq_true, if_false]
        apply prune_lookup_none_conn
        rw [hk]
        exact lookup_filter_key_self conn k
      · have hstep : remove_step conn (k, v) = conn := by
          simp [remove_step, hv, hlk, hcl]
        rw [hstep, if_pos rfl]
        rw [prune_lookup_none_key st conn a ((lookup_eq_none_iff st a).mpr (hk ▸ hnd.1))]
        exact hc
    · rw [if_neg hk] at h
      have hrs : (remove_step conn (k, v)).lookup a = some d :=
        (remove_step_lookup_ne conn (k, v) a hk).trans hc
      exact ih hnd.2 (remove_step conn (k, v)) a d h hrs

theorem prune_sublist : ∀ (st : List (Nat × Bool)) (conn : Registry),
    (refresh_prune st conn).Sublist conn := by
  intro st
  induction st with
  | nil => intro conn; exact List.Sublist.refl _
  | cons e st ih =>
    intro conn
    show (refresh_prune st (remove_step conn e)).Sublist conn
    exact (ih (remove_step conn e)).trans (remove_step_sublist conn e)

theorem prune_no_change : ∀ (st : List (Nat × Bool)) (conn : Registry),
    (∀ p ∈ st, p.2 = true ∨ ∀ d, conn.lookup p.1 = some d → d.claimed = true) →
    refresh_prune st conn = conn := by
  intro st
  induction st with
  | nil => intro conn _; rfl
  | cons e st ih =>
    intro conn hp
    have hstep : remove_step conn e = conn := by
      rcases hp e (List.mem_cons_self _ _) with ht | hcl
      · simp [remove_step, ht]
      · unfold remove_step
        split
        · rfl
        · cases hl : conn.lookup e.1 with
          | some d =>
            dsimp only
            rw [if_pos (hcl d hl)]
          | none =>
            rfl
    show refresh_prune st (remove_step conn e) = conn
    rw [hstep]
    exact ih conn fun p hmem => hp p (List.mem_cons_of_mem _ hmem)

theorem prune_keeps : ∀ (st : List (Nat × Bool)) (conn : Registry) (a : Nat),
    (∀ p ∈ st, p.2 = false → p.1 ≠ a) → a ∈ conn.map Prod.fst →
    a ∈ (refresh_prune st conn).map Prod.fst := by
  intro st
  induction st with
  | nil => intro conn a _ h; exact h
  | cons e st ih =>
    intro conn a hp ha
    show a ∈ (refresh_prune st (remove_step conn e)).map Prod.fst
    apply ih (remove_step conn e) a
      (fun p hmem hf => hp p (List.mem_cons_of_mem _ hmem) hf)
    by_cases hb : e.2 = true
    · have hstep : remove_step conn e = conn := by
        simp [remove_step, hb]
      rw [hstep]
      exact ha
    · have hf : e.2 = false := by
        cases he2 : e.2
        · rfl
        · exact absurd he2 hb
      have hne : a ≠ e.1 := fun h => hp e (List.mem_cons_self _ _) hf h.symm
      unfold remove_step
      rw [if_neg hb]
      cases hl : conn.lookup e.1 with
      | some d =>
        dsimp only
        split
        · exact ha
        · exact mem_keys_filter conn e.1 a hne ha
      | none =>
        exact ha

/-! ## Reconciliation: characterisation of one pass -/

theorem seenb_iff (bus : List bus_device) (d : connected_device) :
    seenb bus d = true ↔
      ∃ b ∈ bus, is_supported b.idVendor b.idProduct = true ∧ b.handle = d.device := by
  unfold seenb
  rw [List.any_eq_true]
  constructor
  · rintro ⟨b, hb, hcond⟩
    rw [Bool.and_eq_true] at hcond
    exact ⟨b, hb, hcond.1, by simpa using hcond.2⟩
  · rintro ⟨b, hb, hs, hh⟩
    refine ⟨b, hb, ?_⟩
    rw [Bool.and_eq_true]
    exact ⟨hs, beq_iff_eq.mpr hh⟩

theorem refresh_lookup (m : libusb_device_manager) (bus : List bus_device)
    (hinv : mgr_inv m) (id : Nat) (d : connected_device)
    (hd : m.connected.lookup id = some d) :
    (refresh_device_list m bus).connected.lookup id
      = if seenb bus d || d.claimed then some d else none := by
  have hscan := scan_inv_final m bus hinv
  have hconn : (refresh_scan m bus).connected.lookup id = some d := by
    obtain ⟨news, hsplit, _⟩ := hscan.conn_split
    rw [hsplit]
    exact lookup_append_left hd
  have hmemk : id ∈ keys m.connected :=
    (lookup_isSome_iff m.connected id).mp (by rw [hd]; rfl)
  obtain ⟨v, hv⟩ := Option.isSome_iff_exists.mp (hscan.status_base_some id hmemk)
  have hiff := hscan.seen_iff id d hd
  show (refresh_prune (refresh_scan m bus).status
    (refresh_scan m bus).connected).lookup id = _
  cases v with
  | true =>
    have hseen : seenb bus d = true := (seenb_iff bus d).mpr (hiff.mp hv)
    rw [prune_lookup_true _ hscan.status_keys_nodup _ id hv, hconn, hseen]
    simp
  | false =>
    have hnseen : seenb bus d = false := by
      cases hsb : seenb bus d
      · rfl
      · exfalso
        have hx := hiff.mpr ((seenb_iff bus d).mp hsb)
        rw [hv] at hx
        exact absurd (Option.some.inj hx) (by simp)
    rw [prune_lookup_false _ hscan.status_keys_nodup _ id d hv hconn, hnseen]
    cases hc : d.claimed <;> simp [hc]

theorem refresh_preserves_inv (m : libusb_device_manager) (bus : List bus_device)
    (hinv : mgr_inv m) : mgr_inv (refresh_device_list m bus) := by
  have hscan := scan_inv_final m bus hinv
  have hsub : (refresh_device_list m bus).connected.Sublist
      (refresh_scan m bus).connected := prune_sublist _ _
  refine ⟨?_, ?_, ?_⟩
  · exact ((hsub.map Prod.fst).nodup hscan.conn_keys_nodup)
  · intro e he
    exact hscan.keys_lt e (hsub.subset he)
  · exact ((hsub.map fun e => e.2.device).nodup hscan.conn_handles_nodup)

theorem refresh_cover (m : libusb_device_manager) (bus : List bus_device)
    (hinv : mgr_inv m) :
    ∀ b ∈ bus, is_supported b.idVendor b.idProduct = true →
      ∃ id d, (refresh_device_list m bus).connected.lookup id = some d
        ∧ d.device = b.handle := by
  intro b hb hs
  have hscan := scan_inv_final m bus hinv
  obtain ⟨id, d, hl, hdev, hor⟩ := hscan.cover b hb hs
  refine ⟨id, d, ?_, hdev⟩
  show (refresh_prune (refresh_scan m bus).status
    (refresh_scan m bus).connected).lookup id = some d
  rcases hor with htrue | hnb
  · rw [prune_lookup_true _ hscan.status_keys_nodup _ id htrue]
    exact hl
  · cases hv : (refresh_scan m bus).status.lookup id with
    | none =>
      rw [prune_lookup_none_key _ _ id hv]
      exact hl
    | some v =>
      cases v with
      | false =>
        exfalso
        exact hnb (hscan.status_false_base (id, false) (lookup_mem hv) rfl)
      | true =>
        rw [prune_lookup_true _ hscan.status_keys_nodup _ id hv]
        exact hl

theorem refresh_claimed_or_seen (m : libusb_device_manager) (bus : List bus_device)
    (hinv : mgr_inv m) :
    ∀ p ∈ (refresh_device_list m bus).connected,
      p.2.claimed = true ∨ seenb bus p.2 = true := by
  intro p hp
  have hscan := scan_inv_final m bus hinv
  have hsub : (refresh_device_list m bus).connected.Sublist
      (refresh_scan m bus).connected := prune_sublist _ _
  have hpmem : p ∈ (refresh_scan m bus).connected := hsub.subset hp
  obtain ⟨news, hsplit, hnews⟩ := hscan.conn_split
  rw [hsplit] at hpmem
  rcases List.mem_append.mp hpmem with hbase | hnew
  · have hl : m.connected.lookup p.1 = some p.2 := mem_lookup hinv.1 hbase
    have hres : (refresh_device_list m bus).connected.lookup p.1 = some p.2 :=
      mem_lookup (refresh_preserves_inv m bus hinv).1 hp
    rw [refresh_lookup m bus hinv p.1 p.2 hl] at hres
    cases hsb : seenb bus p.2 with
    | false =>
      cases hcb : p.2.claimed with
      | false =>
        rw [hsb, hcb] at hres
        simp at hres
      | true => exact Or.inl rfl
    | true => exact Or.inr rfl
  · obtain ⟨_, _, b, hb, hs, hdev⟩ := hnews p hnew
    right
    exact (seenb_iff bus p.2).mpr ⟨b, hb, hs, hdev.symm⟩

theorem scan_fix : ∀ (bus : List bus_device) (conn : Registry)
    (st : List (Nat × Bool)) (n : Nat),
    (∀ b ∈ bus, is_supported b.idVendor b.idProduct = true →
      ∃ e ∈ conn, e.2.device = b.handle) →
    (bus.foldl refresh_step ⟨conn, st, n⟩).connected = conn
    ∧ (bus.foldl refresh_step ⟨conn, st, n⟩).next_id = n := by
  intro bus
  induction bus with
  | nil => intro conn st n _; exact ⟨rfl, rfl⟩
  | cons b bs ih =>
    intro conn st n hcov
    rw [List.foldl_cons]
    by_cases hs : is_supported b.idVendor b.idProduct = true
    · have hfind : ((⟨conn, st, n⟩ : refresh_acc).connected.find?
          fun e => e.2.device = b.handle).isSome = true := by
        obtain ⟨e, he, hdev⟩ := hcov b (List.mem_cons_self _ _) hs
        rw [List.find?_isSome]
        exact ⟨e, he, by simpa using hdev⟩
      obtain ⟨f, hf⟩ := Option.isSome_iff_exists.mp hfind
      have hstep : refresh_step ⟨conn, st, n⟩ b = ⟨conn, status_set st f.1 true, n⟩ := by
        unfold refresh_step
        rw [if_pos hs, hf]
      rw [hstep]
      exact ih conn _ n fun b' hb' hs' => hcov b' (List.mem_cons_of_mem _ hb') hs'
    · have hstep : refresh_step ⟨conn, st, n⟩ b = ⟨conn, st, n⟩ := by
        unfold refresh_step
        rw [if_neg hs]
      rw [hstep]
      exact ih conn st n fun b' hb' hs' => hcov b' (List.mem_cons_of_mem _ hb') hs'

theorem refresh_fold_claimed (id : Nat) (d : connected_device)
    (hcl : d.claimed = true) :
    ∀ (busses : List (List bus_device)) (m : libusb_device_manager),
      mgr_inv m → m.connected.lookup id = some d →
      (busses.foldl refresh_device_list m).connected.lookup id = some d := by
  intro busses
  induction busses with
  | nil => intro m _ hd; exact hd
  | cons bs rest ih =>
    intro m hinv hd
    rw [List.foldl_cons]
    apply ih (refresh_device_list m bs) (refresh_preserves_inv m bs hinv)
    rw [refresh_lookup m bs hinv id d hd, hcl]
    simp

theorem scan_status_false_sub : ∀ (bus : List bus_device) (acc : refresh_acc)
    (base : Registry),
    (∀ p ∈ acc.status, p.2 = false → p.1 ∈ keys base) →
    ∀ p ∈ (bus.foldl refresh_step acc).status, p.2 = false → p.1 ∈ keys base := by
  intro bus
  induction bus with
  | nil => intro acc base h; exact h
  | cons b bs ih =>
    intro acc base h
    rw [List.foldl_cons]
    apply ih
    intro p hp hpf
    unfold refresh_step at hp
    by_cases hs : is_supported b.idVendor b.idProduct = true
    · rw [if_pos hs] at hp
      cases hf : acc.connected.find? fun e => e.2.device = b.handle with
      | some e =>
        rw [hf] at hp
        dsimp only at hp
        exact h p (status_set_mem_false _ _ p hp hpf) hpf
      | none =>
        rw [hf] at hp
        dsimp only at hp
        exact h p hp hpf
    · rw [if_neg hs] at hp
      exact h p hp hpf

/-! ## Claim theorems: device manager -/

/-- C1: for a registered id, `try_claim_device` tests and sets the
`claimed` flag and returns true exactly when this call transitioned the
entry from unclaimed to claimed; of two consecutive calls on an unclaimed
id, exactly the first returns true. -/
theorem spec_c1 (m : libusb_device_manager) (id : Nat) (d : connected_device)
    (hd : m.connected.lookup id = some d) :
    (d.claimed = false →
      (try_claim_device m id).1 = Except.ok true
      ∧ (try_claim_device m id).2.connected.lookup id
          = some { d with claimed := true })
    ∧ (d.claimed = true →
      (try_claim_device m id).1 = Except.ok false
      ∧ (try_claim_device m id).2.connected.lookup id = some d)
    ∧ (d.claimed = false →
      (try_claim_device (try_claim_device m id).2 id).1 = Except.ok false) := by
  have h1 : try_claim_device m id = (Except.ok (!d.claimed),
      { m with connected :=
          update_entry m.connected id fun e => { e with claimed := true } }) := by
    unfold try_claim_device
    rw [hd]
  have h2 : (try_claim_device m id).2.connected.lookup id
      = some { d with claimed := true } := by
    rw [h1]
    dsimp only
    rw [lookup_update_entry_self, hd]
    rfl
  refine ⟨fun hcl => ⟨?_, h2⟩, fun hcl => ⟨?_, ?_⟩, fun _ => ?_⟩
  · rw [h1]
    dsimp only
    rw [hcl]
    rfl
  · rw [h1]
    dsimp only
    rw [hcl]
    rfl
  · have hde : ({ d with claimed := true } : connected_device) = d := by
      cases d
      simp only at hcl
      rw [hcl]
    rw [h2, hde]
  · set m2 := (try_claim_device m id).2 with hm2
    show (try_claim_device m2 id).1 = Except.ok false
    unfold try_claim_device
    rw [h2]
    rfl

/-- C5: for an id absent from the registry, every per-id accessor fails
with the device-not-found error, returning the registry unchanged. -/
theorem spec_c5 (m : libusb_device_manager) (id : Nat)
    (h : m.connected.lookup id = none) :
    get_vendor_id m id = (Except.error (unknown_device_msg id), m)
    ∧ get_product_id m id = (Except.error (unknown_device_msg id), m)
    ∧ get_manufacturer_string m id = (Except.error (unknown_device_msg id), m)
    ∧ get_product_string m id = (Except.error (unknown_device_msg id), m)
    ∧ get_serial_number m id = (Except.error (unknown_device_msg id), m)
    ∧ get_linkmasta_device m id = (Except.error (unknown_device_msg id), m)
    ∧ is_device_claimed m id = (Except.error (unknown_device_msg id), m) := by
  refine ⟨?_, ?_, ?_, ?_, ?_, ?_, ?_⟩
  · simp [get_vendor_id, h]
  · simp [get_product_id, h]
  · simp [get_manufacturer_string, h]
  · simp [get_product_string, h]
  · simp [get_serial_number, h]
  · simp [get_linkmasta_device, h]
  · simp [is_device_claimed, h]

/-- C9: `try_claim_device` on an unknown id raises the device-not-found
error rather than returning false; a false return always means the id is
registered and already claimed. -/
theorem spec_c9 (m : libusb_device_manager) (id : Nat) :
    (m.connected.lookup id = none →
      try_claim_device m id = (Except.error (unknown_device_msg id), m))
    ∧ (∀ b, (try_claim_device m id).1 = Except.ok b → b = false →
      ∃ d, m.connected.lookup id = some d ∧ d.claimed = true) := by
  constructor
  · intro h
    simp [try_claim_device, h]
  · intro b hb hbf
    cases hl : m.connected.lookup id with
    | none =>
      exact absurd hb (by simp [try_claim_device, hl])
    | some d =>
      refine ⟨d, rfl, ?_⟩
      simp only [try_claim_device, hl] at hb
      subst hbf
      cases hc : d.claimed with
      | false =>
        rw [hc] at hb
        simp at hb
      | true => rfl

/-- C10: an entry created during a reconciliation pass is never removed
by the removal phase of that same pass. -/
theorem spec_c10 (m : libusb_device_manager) (bus : List bus_device) (id : Nat)
    (h1 : id ∉ keys m.connected)
    (h2 : id ∈ keys (refresh_scan m bus).connected) :
    id ∈ keys (refresh_device_list m bus).connected := by
  show id ∈ keys (refresh_prune (refresh_scan m bus).status
    (refresh_scan m bus).connected)
  apply prune_keeps
  · intro p hp hpf hpe
    have hbase : p.1 ∈ keys m.connected := by
      apply scan_status_false_sub bus
        { connected := m.connected
          status := m.connected.map fun e => (e.1, false)
          next_id := m.next_id } m.connected ?_ p hp hpf
      intro q hq _
      obtain ⟨e, he, heq⟩ := List.mem_map.mp hq
      rw [← heq]
      exact List.mem_map_of_mem Prod.fst he
    exact h1 (hpe ▸ hbase)
  · exact h2

/-- C2: a reconciliation pass removes a pre-existing entry exactly when
no supported bus device carries its native handle and it is unclaimed; a
claimed entry survives any number of passes over any bus states; after
`release_device`, the next pass that does not see the device removes
it. -/
theorem spec_c2 (m : libusb_device_manager) (bus : List bus_device)
    (hinv : mgr_inv m) (id : Nat) (d : connected_device)
    (hd : m.connected.lookup id = some d) :
    ((refresh_device_list m bus).connected.lookup id = none
        ↔ (seenb bus d = false ∧ d.claimed = false))
    ∧ (d.claimed = true →
        ∀ busses : List (List bus_device),
          (busses.foldl refresh_device_list m).connected.lookup id = some d)
    ∧ (d.claimed = true → seenb bus d = false →
        (refresh_device_list (release_device m id).2 bus).connected.lookup id
          = none) := by
  refine ⟨?_, ?_, ?_⟩
  · rw [refresh_lookup m bus hinv id d hd]
    cases hsb : seenb bus d <;> cases hcb : d.claimed <;> simp
  · intro hcl busses
    exact refresh_fold_claimed id d hcl busses m hinv hd
  · intro hcl hns
    have hrel : (release_device m id).2.connected.lookup id
        = some { d with claimed := false } := by
      unfold release_device
      rw [hd]
      dsimp only
      rw [lookup_update_entry_self, hd]
      rfl
    have hrel2 : (release_device m id).2
        = { m with connected :=
            update_entry m.connected id fun e => { e with claimed := false } } := by
      unfold release_device
      rw [hd]
    have hinvr : mgr_inv (release_device m id).2 := by
      rw [hrel2]
      obtain ⟨hk, hlt, hh⟩ := hinv
      refine ⟨?_, ?_, ?_⟩
      · show (keys (update_entry m.connected id
          fun e => { e with claimed := false })).Nodup
        rw [keys_update_entry]
        exact hk
      · intro e he
        have he' : e ∈ update_entry m.connected id
            (fun e => { e with claimed := false }) := he
        unfold update_entry at he'
        obtain ⟨x, hx, hxe⟩ := List.mem_map.mp he'
        have hxlt := hlt x hx
        by_cases hxid : x.1 = id
        · rw [if_pos hxid] at hxe
          rw [← hxe]
          exact hxlt
        · rw [if_neg hxid] at hxe
          rw [← hxe]
          exact hxlt
      · show ((update_entry m.connected id
          (fun e => { e with claimed := false })).map fun e => e.2.device).Nodup
        rw [devices_update_entry m.connected id
          (fun e => { e with claimed := false }) fun _ => rfl]
        exact hh
    rw [refresh_lookup (release_device m id).2 bus hinvr id _ hrel]
    have hsbr : seenb bus { d with claimed := false } = seenb bus d := rfl
    rw [hsbr, hns]
    simp

/-- C6: reconciliation is idempotent: a second pass over the same bus
state leaves the registry (entries and id counter) exactly as the first
pass left it. -/
theorem spec_c6 (m : libusb_device_manager) (bus : List bus_device)
    (hinv : mgr_inv m) :
    refresh_device_list (refresh_device_list m bus) bus
      = refresh_device_list m bus := by
  set m' := refresh_device_list m bus with hm'
  have hinv' : mgr_inv m' := refresh_preserves_inv m bus hinv
  have hcov : ∀ b ∈ bus, is_supported b.idVendor b.idProduct = true →
      ∃ e ∈ m'.connected, e.2.device = b.handle := by
    intro b hb hs
    obtain ⟨id, d, hl, hdev⟩ := refresh_cover m bus hinv b hb hs
    exact ⟨(id, d), lookup_mem hl, hdev⟩
  obtain ⟨hc2, hn2⟩ := scan_fix bus m'.connected
    (m'.connected.map fun e => (e.1, false)) m'.next_id hcov
  have hscan2 := scan_inv_final m' bus hinv'
  have h1 : (refresh_scan m' bus).connected = m'.connected := by
    rw [refresh_scan]
    exact hc2
  have h2 : (refresh_scan m' bus).next_id = m'.next_id := by
    rw [refresh_scan]
    exact hn2
  have hnochange : refresh_prune (refresh_scan m' bus).status
      (refresh_scan m' bus).connected = (refresh_scan m' bus).connected := by
    apply prune_no_change
    intro p hpmem
    obtain ⟨p1, p2⟩ := p
    cases hpv : p2 with
    | true => exact Or.inl rfl
    | false =>
      right
      intro d hdl
      have hp1 : p1 ∈ keys m'.connected :=
        hscan2.status_false_base (p1, p2) hpmem hpv
      have hd' : m'.connected.lookup p1 = some d := by
        rw [← h1]
        exact hdl
      rcases refresh_claimed_or_seen m bus hinv (p1, d) (lookup_mem hd')
        with hclaimed | hseen
      · exact hclaimed
      · exfalso
        obtain ⟨b, hb, hs, hh⟩ := (seenb_iff bus d).mp hseen
        have hst : (refresh_scan m' bus).status.lookup p1 = some true :=
          (hscan2.seen_iff p1 d hd').mpr ⟨b, hb, hs, hh⟩
        have hmem_false : (p1, false) ∈ (refresh_scan m' bus).status := by
          rw [← hpv]
          exact hpmem
        have hst' : (refresh_scan m' bus).status.lookup p1 = some false :=
          mem_lookup hscan2.status_keys_nodup hmem_false
        rw [hst] at hst'
        exact absurd (Option.some.inj hst') (by simp)
  show ({ connected := refresh_prune (refresh_scan m' bus).status
            (refresh_scan m' bus).connected
          next_id := (refresh_scan m' bus).next_id } : libusb_device_manager)
      = m'
  rw [hnochange, h1, h2]

/-- C7: a bus device is registered by reconciliation exactly when its
(vendor, product) pair is on the fixed three-pair allow-list; a device
with any other pair is never entered into the registry. -/
theorem spec_c7 :
    (∀ v p, is_supported v p = true ↔
      ((v = 0x20A0 ∧ p = 0x4178) ∨ (v = 0x20A0 ∧ p = 0x4256)
        ∨ (v = 0x20A0 ∧ p = 0x4252)))
    ∧ (∀ (m : libusb_device_manager) (bus : List bus_device) (b : bus_device),
        mgr_inv m → b ∈ bus → is_supported b.idVendor b.idProduct = true →
        ∃ id d, (refresh_device_list m bus).connected.lookup id = some d
          ∧ d.device = b.handle)
    ∧ (∀ (m : libusb_device_manager) (bus : List bus_device) (b : bus_device),
        mgr_inv m → (bus.map bus_device.handle).Nodup → b ∈ bus →
        is_supported b.idVendor b.idProduct = false →
        (∀ e ∈ m.connected, e.2.device ≠ b.handle) →
        ∀ e ∈ (refresh_device_list m bus).connected,
          e.2.device ≠ b.handle) := by
  refine ⟨?_, ?_, ?_⟩
  · intro v p
    unfold is_supported
    simp [Bool.or_eq_true, Bool.and_eq_true, beq_iff_eq]
    exact or_assoc
  · intro m bus b hinv hb hs
    exact refresh_cover m bus hinv b hb hs
  · intro m bus b hinv hnd hb hs hstart e he
    have hscan := scan_inv_final m bus hinv
    have hsub : (refresh_device_list m bus).connected.Sublist
        (refresh_scan m bus).connected := prune_sublist _ _
    have hmem : e ∈ (refresh_scan m bus).connected := hsub.subset he
    obtain ⟨news, hsplit, hnews⟩ := hscan.conn_split
    rw [hsplit] at hmem
    rcases List.mem_append.mp hmem with hbm | hnm
    · exact hstart e hbm
    · obtain ⟨_, _, b', hb', hs', hdev⟩ := hnews e hnm
      intro hde
      have hbb : b' = b :=
        List.inj_on_of_nodup_map hnd hb' hb (by rw [← hdev, hde])
      rw [hbb, hs] at hs'
      exact absurd hs' (by simp)

/-- C1 witness: on a registry holding the unclaimed entry `dev5`, the
first claim succeeds and the immediate second claim fails. -/
theorem spec_c1_w :
    (try_claim_device mgr1 5).1 = Except.ok true
    ∧ (try_claim_device mgr1 5).2.connected.lookup 5
        = some { dev5 with claimed := true }
    ∧ (try_claim_device (try_claim_device mgr1 5).2 5).1 = Except.ok false := by
  have h := spec_c1 mgr1 5 dev5 rfl
  exact ⟨(h.1 rfl).1, (h.1 rfl).2, h.2.2 rfl⟩

/-- C2 witness: the claimed entry `dev5c` survives two passes over an
empty bus; after release, one pass over the empty bus removes it. -/
theorem spec_c2_w :
    ((refresh_device_list mgr1c []).connected.lookup 5 = none
        ↔ (seenb [] dev5c = false ∧ dev5c.claimed = false))
    ∧ ([[], []].foldl refresh_device_list mgr1c).connected.lookup 5 = some dev5c
    ∧ (refresh_device_list (release_device mgr1c 5).2 []).connected.lookup 5
        = none := by
  have h := spec_c2 mgr1c [] ⟨by decide, by decide, by decide⟩ 5 dev5c rfl
  exact ⟨h.1, h.2.1 rfl [[], []], h.2.2 rfl rfl⟩

/-- C5 witness: every accessor on a fresh registry and an unknown id
fails with the not-found error and returns the registry unchanged. -/
theorem spec_c5_w :
    get_vendor_id mgr0 3 = (Except.error (unknown_device_msg 3), mgr0)
    ∧ get_product_id mgr0 3 = (Except.error (unknown_device_msg 3), mgr0)
    ∧ get_manufacturer_string mgr0 3 = (Except.error (unknown_device_msg 3), mgr0)
    ∧ get_product_string mgr0 3 = (Except.error (unknown_device_msg 3), mgr0)
    ∧ get_serial_number mgr0 3 = (Except.error (unknown_device_msg 3), mgr0)
    ∧ get_linkmasta_device mgr0 3 = (Except.error (unknown_device_msg 3), mgr0)
    ∧ is_device_claimed mgr0 3 = (Except.error (unknown_device_msg 3), mgr0) :=
  spec_c5 mgr0 3 rfl

/-- C6 witness: a second pass over the one-device bus `busA` leaves the
registry exactly as the first pass left it. -/
theorem spec_c6_w :
    refresh_device_list (refresh_device_list mgr1 busA) busA
      = refresh_device_list mgr1 busA :=
  spec_c6 mgr1 busA ⟨by decide, by decide, by decide⟩

/-- C7 witness: the allow-list characterisation at the WonderSwan pair,
registration of the supported device on `busA`, and exclusion of the
unsupported device on `busU`. -/
theorem spec_c7_w :
    (is_supported 0x20A0 0x4252 = true ↔
      ((0x20A0 = 0x20A0 ∧ 0x4252 = 0x4178) ∨ (0x20A0 = 0x20A0 ∧ 0x4252 = 0x4256)
        ∨ (0x20A0 = 0x20A0 ∧ 0x4252 = 0x4252)))
    ∧ (∃ id d, (refresh_device_list mgr0 busA).connected.lookup id = some d
        ∧ d.device = 77)
    ∧ (∀ e ∈ (refresh_device_list mgr0 busU).connected,
        e.2.device ≠ 88) := by
  refine ⟨spec_c7.1 0x20A0 0x4252, ?_, ?_⟩
  · exact spec_c7.2.1 mgr0 busA (busA.get ⟨0, by decide⟩)
      ⟨by decide, by decide, by decide⟩ (by simp [busA]) rfl
  · exact spec_c7.2.2 mgr0 busU (busU.get ⟨0, by decide⟩)
      ⟨by decide, by decide, by decide⟩
      (by decide) (by simp [busU]) (by decide) (by simp [mgr0])

/-- C9 witness: `try_claim_device` on an unknown id raises the not-found
error, and a false return on `mgr1c` comes with a claimed entry. -/
theorem spec_c9_w :
    try_claim_device mgr0 3 = (Except.error (unknown_device_msg 3), mgr0)
    ∧ ∃ d, mgr1c.connected.lookup 5 = some d ∧ d.claimed = true :=
  ⟨(spec_c9 mgr0 3).1 rfl, (spec_c9 mgr1c 5).2 false rfl rfl⟩

/-- C10 witness: the entry created for the device on `busA` during a pass
over the empty registry survives that same pass. -/
theorem spec_c10_w : 0 ∈ keys (refresh_device_list mgr0 busA).connected :=
  spec_c10 mgr0 busA 0 (by decide) (by decide)
